/- Verification of the sensitivity grid-scheduling engine of PyAutoFit
   (autofit/non_linear/grid/sensitivity.py) over a shallow embedding.

   External capabilities (search, model, prior, analysis, image synthesis,
   parallel executor) follow the interface contracts of the specification;
   machine floats are modelled by exact rationals. -/
import Mathlib

namespace AutoFitSens

/-! Rendering of numeric values.

Python renders the physical value into the label with an f-string.  We model
the rendering of a rational value as a decimal numerator, a solidus and a
decimal denominator (omitted when the denominator is one). -/

/-- Character for one decimal digit. -/
def digitChar (d : ℕ) : Char :=
  Char.ofNat (48 + d)

/-- Decimal digit characters of a natural number, most significant first. -/
def natReprL (n : ℕ) : List Char :=
  if n = 0 then [Char.ofNat 48] else ((Nat.digits 10 n).map digitChar).reverse

/-- Digit characters of an integer, with a leading minus sign when negative. -/
def intReprL (i : ℤ) : List Char :=
  if i < 0 then Char.ofNat 45 :: natReprL i.natAbs else natReprL i.toNat

/-- Characters rendering a rational number. -/
def ratReprL (q : ℚ) : List Char :=
  intReprL q.num ++ (if q.den = 1 then [] else Char.ofNat 47 :: natReprL q.den)

/-- String interpolation of a physical value, standing in for the f-string
interpolation in `Sensitivity._labels`. -/
def renderValue (q : ℚ) : String :=
  String.mk (ratReprL q)

/-! The data model of sensitivity.py. -/

/-- A fit result from the external search capability (spec section 6):
exposes a scalar log likelihood. -/
structure Result where
  log_likelihood : ℚ
deriving DecidableEq

/-- The result of a single sensitivity comparison (class JobResult). -/
structure JobResult where
  result : Result
  perturbed_result : Result
deriving DecidableEq

/-- JobResult.log_likelihood_difference. -/
def JobResult.log_likelihood_difference (jr : JobResult) : ℚ :=
  jr.perturbed_result.log_likelihood - jr.result.log_likelihood

/-- Prior capability (spec section 6): the unit-to-physical transform. -/
structure Prior where
  value_for : ℚ → ℚ

/-- A model instance: either a materialized vector of values, an opaque
object, or a composite with named fields (class ModelInstance builds such
composites by attribute assignment, in order). -/
inductive MInst where
  | vec (v : List ℚ)
  | obj (n : ℕ)
  | fields (l : List (String × MInst))

/-- Model capability (spec section 6): ordered path-prior pairs and the
unit-vector-to-instance transform. -/
structure PriorModel where
  prior_tuples : List (String × Prior)
  instance_from_unit_vector : List ℚ → MInst

/-- The dimensionality of a model (prior_count). -/
def PriorModel.prior_count (m : PriorModel) : ℕ :=
  m.prior_tuples.length

/-- Modelled from the spec: CollectionPriorModel is imported from outside the
given sources; per spec section 9 composite-model construction is an ordered
mapping from field name to sub-model, fields appended in assignment order. -/
structure CollectionPriorModel where
  fields : List (String × PriorModel)

/-- A fresh, empty composite model. -/
def CollectionPriorModel.empty : CollectionPriorModel :=
  ⟨[]⟩

/-- Attribute assignment on a composite model appends a named sub-model. -/
def CollectionPriorModel.set (c : CollectionPriorModel) (nm : String)
    (m : PriorModel) : CollectionPriorModel :=
  ⟨c.fields ++ [(nm, m)]⟩

/-- Modelled from the spec: the Paths class is imported from outside the given
sources; per spec section 6 a path descriptor carries at minimum name, tag,
path prefix and the file-removal policy; sensitivity.py also reads a
non-linear tag from the template descriptor.  The field path_pfx models the
path_prefix attribute. -/
structure Paths where
  name : String
  tag : String
  path_pfx : String
  remove_files : Bool
  non_linear_tag : String
deriving DecidableEq

/-- Modelled from the spec: the four-argument Paths constructor used by
sensitivity.py; the non-linear tag of a freshly built descriptor is empty. -/
def Paths.make (nm tg pfx : String) (rm : Bool) : Paths :=
  ⟨nm, tg, pfx, rm, ""⟩

/-- Search capability (spec section 6): a path descriptor together with an
opaque fit function from composite model and analysis to a result.  The
analysis object is modelled as a rational token. -/
structure NonLinearSearch where
  paths : Paths
  fit : CollectionPriorModel → ℚ → Result

/-- copy_with_paths: an independently namespaced, otherwise identical
search configuration. -/
def NonLinearSearch.copy_with_paths (s : NonLinearSearch) (p : Paths) :
    NonLinearSearch :=
  { paths := p, fit := s.fit }

/-- Class Job: the unit of work, holding the analysis, the base model, the
perturbation model and the two searches. -/
structure Job where
  analysis : ℚ
  model : PriorModel
  perturbation_model : PriorModel
  search : NonLinearSearch
  perturbed_search : NonLinearSearch

/-- Job.__init__: stores its arguments, and derives the perturbed search by
copying the given search with the same name, path prefix and removal policy
but the tag extended by the literal suffix. -/
def Job.make (analysis : ℚ) (model perturbation_model : PriorModel)
    (search : NonLinearSearch) : Job :=
  { analysis := analysis
    model := model
    perturbation_model := perturbation_model
    search := search
    perturbed_search := search.copy_with_paths
      (Paths.make search.paths.name (search.paths.tag ++ "[perturbed]")
        search.paths.path_pfx search.paths.remove_files) }

/-- Job.perform: fit a composite holding only the base model with the
baseline search, fit a composite holding the perturbation model and the base
model with the perturbed search, and pair the two results. -/
def Job.perform (j : Job) : JobResult :=
  let model := CollectionPriorModel.empty.set "model" j.model
  let result := j.search.fit model j.analysis
  let perturbed_model :=
    (CollectionPriorModel.empty.set "perturbation" j.perturbation_model).set
      "model" j.model
  let perturbed_result := j.perturbed_search.fit perturbed_model j.analysis
  { result := result, perturbed_result := perturbed_result }

/-! The grid enumerator. -/

/-- The points of one grid dimension with step size s:
s, 2s, ..., floor(1/s) * s. -/
def gridPoints (s : ℚ) : List ℚ :=
  (List.range (Int.floor ((1 : ℚ) / s)).toNat).map
    (fun k : ℕ => ((k : ℚ) + 1) * s)

/-- The cartesian product of the per-dimension point lists, first dimension
varying slowest. -/
def gridLists : List ℚ → List (List ℚ)
  | [] => [[]]
  | s :: rest =>
    ((gridPoints s).map (fun v => (gridLists rest).map (fun l => v :: l))).flatten

/-- The step-size configuration: one scalar for every dimension, or one
scalar per dimension. -/
inductive StepSize where
  | uniform (s : ℚ)
  | perDim (l : List ℚ)

/-- The per-dimension step sizes of a configuration at dimensionality D. -/
def StepSize.steps (c : StepSize) (D : ℕ) : List ℚ :=
  match c with
  | uniform s => List.replicate D s
  | perDim l => l

/-- A step size is valid when it lies in the half-open unit interval. -/
def validStep (q : ℚ) : Bool :=
  decide (0 < q) && decide (q ≤ 1)

/-- A configuration is valid at dimensionality D when every per-dimension
step size is valid and a per-dimension list has length D. -/
def StepSize.valid (c : StepSize) (D : ℕ) : Bool :=
  match c with
  | uniform s => validStep s
  | perDim l => (l.length == D) && l.all validStep

/-- Modelled from the spec: the grid enumerator make_lists is imported from
autofit.non_linear.grid.grid_search, which is not among the given sources.
Spec section 4.1: produce the ordered cartesian product across dimensions of
the points step, 2 step, ..., floor(1/step) step, in lexicographic order with
the first dimension varying slowest; a step size outside the half-open unit
interval is a configuration error that fails fast. -/
def make_lists (D : ℕ) (step_size : StepSize) :
    Except String (List (List ℚ)) :=
  if step_size.valid D then Except.ok (gridLists (step_size.steps D))
  else Except.error "invalid step size"

/-! The Sensitivity orchestrator. -/

/-- Class Sensitivity: configuration of one sensitivity run.  The field
instance_ models the attribute named instance; images and analyses are
rational tokens, image_function and analysis_class are the externally
supplied capabilities. -/
structure Sensitivity where
  instance_ : MInst
  model : PriorModel
  perturbation_model : PriorModel
  image_function : MInst → ℚ
  analysis_class : ℚ → ℚ
  search : NonLinearSearch
  step_size : StepSize
  number_of_cores : ℕ

/-- Sensitivity._lists: the grid coordinates for the perturbation model. -/
def Sensitivity.lists (s : Sensitivity) : Except String (List (List ℚ)) :=
  make_lists s.perturbation_model.prior_count s.step_size

/-- The label tokens of one coordinate: one token path_value per dimension,
pairing by position and stopping at the shorter of coordinate and
prior-tuple list, as the zip in Sensitivity._labels does. -/
def tokensOf (m : PriorModel) (coord : List ℚ) : List String :=
  (coord.zip m.prior_tuples).map
    (fun vp => vp.2.1 ++ "_" ++ renderValue (vp.2.2.value_for vp.1))

/-- The join of the f-string tokens with underscores. -/
def joinUnderscore : List String → String
  | [] => ""
  | [x] => x
  | x :: xs => x ++ "_" ++ joinUnderscore xs

/-- Sensitivity._labels, for one coordinate: transform each component with
the value_for of its prior and join the tokens. -/
def labelOf (m : PriorModel) (coord : List ℚ) : String :=
  joinUnderscore (tokensOf m coord)

/-- The transformed physical values of one coordinate, pairing by position
exactly as the label does. -/
def valuesOf (m : PriorModel) (coord : List ℚ) : List ℚ :=
  (coord.zip m.prior_tuples).map (fun vp => vp.2.2.value_for vp.1)

/-- Sensitivity._labels: one label per grid coordinate. -/
def Sensitivity.labels (s : Sensitivity) : Except String (List String) :=
  s.lists.map (fun ls => ls.map (labelOf s.perturbation_model))

/-- Sensitivity._perturbation_instances: one materialized instance per grid
coordinate. -/
def Sensitivity.perturbation_instances (s : Sensitivity) :
    Except String (List MInst) :=
  s.lists.map (fun ls => ls.map s.perturbation_model.instance_from_unit_vector)

/-- The name path derived from the template descriptor and one label, as
formatted in Sensitivity._searches. -/
def name_path_of (p : Paths) (label : String) : String :=
  p.name ++ "/" ++ p.tag ++ "/" ++ p.non_linear_tag ++ "/" ++ label

/-- Sensitivity._search_instance: copy the template search with a descriptor
holding the given name and the tag, path prefix and removal policy of the
template. -/
def Sensitivity.search_instance (s : Sensitivity) (name_path : String) :
    NonLinearSearch :=
  s.search.copy_with_paths
    (Paths.make name_path s.search.paths.tag s.search.paths.path_pfx
      s.search.paths.remove_files)

/-- Sensitivity._searches: one namespaced search per label. -/
def Sensitivity.searches (s : Sensitivity) :
    Except String (List NonLinearSearch) :=
  s.labels.map (fun ls =>
    ls.map (fun label => s.search_instance (name_path_of s.search.paths label)))

/-- The body of Sensitivity._make_jobs for one perturbation instance and one
search: compose the base instance and the perturbation instance, synthesize
the image, build the analysis and the job. -/
def Sensitivity.make_job (s : Sensitivity) (p : MInst)
    (srch : NonLinearSearch) : Job :=
  let inst := MInst.fields [("model", s.instance_), ("perturbation", p)]
  let image := s.image_function inst
  Job.make (s.analysis_class image) s.model s.perturbation_model srch

/-- The job built for one grid coordinate: the perturbation instance from the
coordinate and the search namespaced by the coordinate label. -/
def Sensitivity.jobFor (s : Sensitivity) (c : List ℚ) : Job :=
  s.make_job (s.perturbation_model.instance_from_unit_vector c)
    (s.search_instance
      (name_path_of s.search.paths (labelOf s.perturbation_model c)))

/-- Sensitivity._make_jobs: zip the perturbation instances with the searches
and build one job per pair. -/
def Sensitivity.make_jobs (s : Sensitivity) : Except String (List Job) := do
  let ps ← s.perturbation_instances
  let ss ← s.searches
  return (ps.zip ss).map (fun pr => s.make_job pr.1 pr.2)

/-- Modelled from the spec: the parallel executor Process.run_jobs is
imported from autofit.non_linear.parallel, which is not among the given
sources.  Spec section 6: it receives the ordered job sequence and the worker
count and returns the job results as an iterable, executing every submitted
job exactly once; no ordering of the returned results is guaranteed by the
contract.  It is therefore modelled as a parameter of the run. -/
def Executor : Type :=
  List Job → ℕ → List JobResult

/-- Sensitivity.run: hand the jobs and the worker count to the executor and
collect the yielded results in yielded order. -/
def Sensitivity.run (s : Sensitivity) (ex : Executor) :
    Except String (List JobResult) :=
  s.make_jobs.map (fun jobs => ex jobs s.number_of_cores)

/-- An executor that completes the jobs in submission order. -/
def orderedExecutor : Executor :=
  fun jobs _ => jobs.map Job.perform

/-- An executor that completes the jobs in reverse submission order and
yields each result as it completes: it executes every submitted job exactly
once, as the executor contract requires. -/
def reverseExecutor : Executor :=
  fun jobs _ => (jobs.map Job.perform).reverse

/-! Concrete configurations used as witnesses and counterexamples. -/

/-- A prior whose unit-to-physical transform is the identity. -/
def idPrior : Prior :=
  ⟨fun q => q⟩

/-- A degenerate prior whose unit-to-physical transform is constant. -/
def constPrior : Prior :=
  ⟨fun _ => 1⟩

/-- A one-dimensional perturbation model with an identity prior. -/
def cModel : PriorModel :=
  { prior_tuples := [("p", idPrior)]
    instance_from_unit_vector := fun v => MInst.vec v }

/-- A one-dimensional perturbation model with a constant prior: two distinct
coordinates receive the same label. -/
def degModel : PriorModel :=
  { prior_tuples := [("p", constPrior)]
    instance_from_unit_vector := fun v => MInst.vec v }

/-- A concrete search template whose fit returns the analysis token as the
log likelihood. -/
def cSearch : NonLinearSearch :=
  { paths := ⟨"srch", "tag", "pp", true, "nl"⟩
    fit := fun _ a => ⟨a⟩ }

/-- A concrete image synthesis capability reading the first component of the
perturbation instance of the composed instance. -/
def cImage : MInst → ℚ
  | MInst.fields [_, (_, MInst.vec (q :: _))] => q
  | _ => 0

/-- A concrete sensitivity configuration: one dimension, uniform step one
half, two workers. -/
def cSens : Sensitivity :=
  { instance_ := MInst.obj 0
    model := cModel
    perturbation_model := cModel
    image_function := cImage
    analysis_class := fun a => a
    search := cSearch
    step_size := StepSize.uniform (1 / 2)
    number_of_cores := 2 }

/-- The same configuration with a single worker. -/
def cSens1 : Sensitivity :=
  { cSens with number_of_cores := 1 }

/-- The same configuration with an out-of-range step size. -/
def badStepSens : Sensitivity :=
  { cSens with step_size := StepSize.uniform (3 / 2) }

/-- The degenerate configuration: constant prior, so both grid coordinates
yield the same label. -/
def degSens : Sensitivity :=
  { cSens with perturbation_model := degModel }

/-- The jobs of the concrete configuration. -/
def cJobs : List Job :=
  cSens.make_jobs.toOption.getD []

/-- The grid coordinates of the concrete configuration. -/
def cCoords : List (List ℚ) :=
  [[1 / 2], [1]]

/-! Facts about the rendering of values. -/

lemma digitChar_inj_lt : ∀ d1, d1 < 10 → ∀ d2, d2 < 10 →
    digitChar d1 = digitChar d2 → d1 = d2 := by decide

lemma digitChar_ne_dash : ∀ d, d < 10 → digitChar d ≠ '-' := by decide

lemma digitChar_ne_slash : ∀ d, d < 10 → digitChar d ≠ '/' := by decide

lemma digitChar_ne_uscore : ∀ d, d < 10 → digitChar d ≠ '_' := by decide

lemma mem_natReprL {n : ℕ} {c : Char} (hc : c ∈ natReprL n) :
    ∃ d, d < 10 ∧ c = digitChar d := by
  unfold natReprL at hc
  split at hc
  · simp at hc
    exact ⟨0, by decide, by simp [hc, digitChar]⟩
  · simp only [List.mem_reverse, List.mem_map] at hc
    obtain ⟨d, hd, rfl⟩ := hc
    exact ⟨d, Nat.digits_lt_base (by norm_num) hd, rfl⟩

lemma dash_not_mem_natReprL (n : ℕ) : ('-' : Char) ∉ natReprL n := by
  intro h
  obtain ⟨d, hd, he⟩ := mem_natReprL h
  exact digitChar_ne_dash d hd he.symm

lemma slash_not_mem_natReprL (n : ℕ) : ('/' : Char) ∉ natReprL n := by
  intro h
  obtain ⟨d, hd, he⟩ := mem_natReprL h
  exact digitChar_ne_slash d hd he.symm

lemma map_digitChar_inj : ∀ (l1 l2 : List ℕ), (∀ x ∈ l1, x < 10) →
    (∀ x ∈ l2, x < 10) → l1.map digitChar = l2.map digitChar → l1 = l2 := by
  intro l1
  induction l1 with
  | nil => intro l2 _ _ h; cases l2 <;> simp_all
  | cons a t ih =>
    intro l2 h1 h2 h
    cases l2 with
    | nil => simp at h
    | cons b t2 =>
      simp only [List.map_cons, List.cons.injEq] at h
      obtain ⟨hab, ht⟩ := h
      have hd := digitChar_inj_lt a (h1 a (by simp)) b (h2 b (by simp)) hab
      subst hd
      rw [ih t2 (fun x hx => h1 x (by simp [hx]))
        (fun x hx => h2 x (by simp [hx])) ht]

lemma natReprL_pos_ne_zero_repr {n : ℕ} (hn : n ≠ 0)
    (h : natReprL n = [Char.ofNat 48]) : False := by
  unfold natReprL at h
  rw [if_neg hn, ← List.map_reverse] at h
  have h0 : ([Char.ofNat 48] : List Char) = [0].map digitChar := rfl
  rw [h0] at h
  have hdig := map_digitChar_inj _ _
    (fun x hx => Nat.digits_lt_base (by norm_num)
      (List.mem_reverse.mp hx)) (by simp) h
  have hrev : Nat.digits 10 n = [0] := by
    have := congrArg List.reverse hdig
    simpa using this
  have hofd := Nat.ofDigits_digits 10 n
  rw [hrev] at hofd
  simp [Nat.ofDigits] at hofd
  exact hn hofd.symm

lemma natReprL_inj : ∀ {m n : ℕ}, natReprL m = natReprL n → m = n := by
  intro m n h
  by_cases hm : m = 0 <;> by_cases hn : n = 0
  · omega
  · exfalso
    subst hm
    exact natReprL_pos_ne_zero_repr hn
      (h.symm.trans (rfl : natReprL 0 = [Char.ofNat 48]))
  · exfalso
    subst hn
    exact natReprL_pos_ne_zero_repr hm
      (h.trans (rfl : natReprL 0 = [Char.ofNat 48]))
  · unfold natReprL at h
    rw [if_neg hm, if_neg hn] at h
    have hmap := List.reverse_injective h
    have hdig := map_digitChar_inj _ _
      (fun x hx => Nat.digits_lt_base (by norm_num) hx)
      (fun x hx => Nat.digits_lt_base (by norm_num) hx) hmap
    have := congrArg (Nat.ofDigits 10) hdig
    rwa [Nat.ofDigits_digits, Nat.ofDigits_digits] at this

lemma mem_intReprL {i : ℤ} {c : Char} (hc : c ∈ intReprL i) :
    c = '-' ∨ ∃ d, d < 10 ∧ c = digitChar d := by
  unfold intReprL at hc
  split at hc
  · rcases List.mem_cons.mp hc with h | h
    · exact Or.inl h
    · exact Or.inr (mem_natReprL h)
  · exact Or.inr (mem_natReprL hc)

lemma slash_not_mem_intReprL (i : ℤ) : ('/' : Char) ∉ intReprL i := by
  intro h
  rcases mem_intReprL h with h | ⟨d, hd, he⟩
  · exact (by decide : ('/' : Char) ≠ '-') h
  · exact digitChar_ne_slash d hd he.symm

lemma sep_split {sep : Char} :
    ∀ (v w r1 r2 : List Char), sep ∉ v → sep ∉ w →
    v ++ sep :: r1 = w ++ sep :: r2 → v = w ∧ r1 = r2 := by
  intro v
  induction v with
  | nil =>
    intro w r1 r2 _ hw h
    cases w with
    | nil => simpa using h
    | cons b t =>
      simp only [List.nil_append, List.cons_append, List.cons.injEq] at h
      exact absurd (h.1 ▸ List.mem_cons_self b t) hw
  | cons a t ih =>
    intro w r1 r2 hv hw h
    cases w with
    | nil =>
      simp only [List.cons_append, List.nil_append, List.cons.injEq] at h
      exact absurd (h.1 ▸ List.mem_cons_self a t) hv
    | cons b t2 =>
      simp only [List.cons_append, List.cons.injEq] at h
      obtain ⟨hab, hrest⟩ := h
      subst hab
      obtain ⟨h1, h2⟩ := ih t2 r1 r2 (fun hx => hv (List.mem_cons_of_mem a hx))
        (fun hx => hw (List.mem_cons_of_mem a hx)) hrest
      exact ⟨by rw [h1], h2⟩

lemma intReprL_inj : ∀ {i j : ℤ}, intReprL i = intReprL j → i = j := by
  intro i j h
  unfold intReprL at h
  split at h <;> split at h
  · rename_i hi hj
    have := natReprL_inj (List.cons.inj h).2
    omega
  · rename_i hi hj
    exfalso
    have : ('-' : Char) ∈ natReprL j.toNat := by
      rw [← h]; simp
    exact dash_not_mem_natReprL _ this
  · rename_i hi hj
    exfalso
    have : ('-' : Char) ∈ natReprL i.toNat := by
      rw [h]; simp
    exact dash_not_mem_natReprL _ this
  · rename_i hi hj
    have := natReprL_inj h
    omega

lemma ratReprL_inj : ∀ {p q : ℚ}, ratReprL p = ratReprL q → p = q := by
  intro p q h
  unfold ratReprL at h
  by_cases hp : p.den = 1 <;> by_cases hq : q.den = 1
  · simp only [hp, hq, if_true, List.append_nil] at h
    exact Rat.ext (intReprL_inj h) (hp.trans hq.symm)
  · exfalso
    simp only [hp, hq, if_true, if_neg hq, List.append_nil] at h
    have : ('/' : Char) ∈ intReprL p.num := by
      rw [h]; simp
    exact slash_not_mem_intReprL _ this
  · exfalso
    simp only [hp, hq, if_true, if_neg hp, List.append_nil] at h
    have : ('/' : Char) ∈ intReprL q.num := by
      rw [← h]; simp
    exact slash_not_mem_intReprL _ this
  · simp only [if_neg hp, if_neg hq] at h
    obtain ⟨h1, h2⟩ := sep_split _ _ _ _
      (slash_not_mem_intReprL p.num) (slash_not_mem_intReprL q.num) h
    exact Rat.ext (intReprL_inj h1) (natReprL_inj h2)

lemma renderValue_inj {p q : ℚ} (h : renderValue p = renderValue q) :
    p = q := by
  apply ratReprL_inj
  have := congrArg String.data h
  simpa [renderValue] using this

lemma uscore_not_mem_renderValue (q : ℚ) :
    ('_' : Char) ∉ (renderValue q).data := by
  intro h
  simp only [renderValue] at h
  unfold ratReprL at h
  rcases List.mem_append.mp h with h | h
  · rcases mem_intReprL h with h | ⟨d, hd, he⟩
    · exact (by decide : ('_' : Char) ≠ '-') h
    · exact digitChar_ne_uscore d hd he.symm
  · split at h
    · simp at h
    · rcases List.mem_cons.mp h with h | h
      · exact (by decide : ('_' : Char) ≠ '/') h
      · obtain ⟨d, hd, he⟩ := mem_natReprL h
        exact digitChar_ne_uscore d hd he.symm

/-! Facts about labels. -/

lemma uscore_data : ("_" : String).data = ['_'] := rfl

lemma joinUnderscore_single (x : String) : joinUnderscore [x] = x := rfl

lemma joinUnderscore_cons_cons (x y : String) (ys : List String) :
    joinUnderscore (x :: y :: ys) = x ++ "_" ++ joinUnderscore (y :: ys) := rfl

lemma label_aux : ∀ (pt : List (String × Prior)) (c1 c2 : List ℚ),
    c1.length = pt.length → c2.length = pt.length →
    joinUnderscore ((c1.zip pt).map
      (fun vp => vp.2.1 ++ "_" ++ renderValue (vp.2.2.value_for vp.1))) =
    joinUnderscore ((c2.zip pt).map
      (fun vp => vp.2.1 ++ "_" ++ renderValue (vp.2.2.value_for vp.1))) →
    (c1.zip pt).map (fun vp => vp.2.2.value_for vp.1) =
    (c2.zip pt).map (fun vp => vp.2.2.value_for vp.1) := by
  intro pt
  induction pt with
  | nil => intro c1 c2 _ _ _; simp
  | cons hd pt2 ih =>
    obtain ⟨p, pr⟩ := hd
    intro c1 c2 h1 h2 heq
    cases c1 with
    | nil => simp at h1
    | cons v1 t1 =>
      cases c2 with
      | nil => simp at h2
      | cons v2 t2 =>
        simp only [List.length_cons] at h1 h2
        simp only [List.zip_cons_cons, List.map_cons] at heq ⊢
        cases pt2 with
        | nil =>
          simp only [List.zip_nil_right, List.map_nil, joinUnderscore_single]
            at heq ⊢
          have hdata := congrArg String.data heq
          simp only [String.data_append, uscore_data, List.append_assoc,
            List.cons_append, List.nil_append, List.append_cancel_left_eq,
            List.cons.injEq, true_and] at hdata
          rw [renderValue_inj (String.ext hdata)]
        | cons q pt3 =>
          cases t1 with
          | nil => simp at h1
          | cons w1 u1 =>
            cases t2 with
            | nil => simp at h2
            | cons w2 u2 =>
              simp only [List.zip_cons_cons, List.map_cons,
                joinUnderscore_cons_cons] at heq ⊢
              have hdata := congrArg String.data heq
              simp only [String.data_append, uscore_data, List.append_assoc,
                List.cons_append, List.nil_append,
                List.append_cancel_left_eq, List.cons.injEq, true_and]
                at hdata
              obtain ⟨hr, hJ⟩ := sep_split _ _ _ _
                (uscore_not_mem_renderValue _) (uscore_not_mem_renderValue _)
                hdata
              rw [renderValue_inj (String.ext hr)]
              have htail := ih (w1 :: u1) (w2 :: u2)
                (by simpa using h1) (by simpa using h2)
                (by
                  have := String.ext hJ
                  simpa only [List.zip_cons_cons, List.map_cons,
                    joinUnderscore_cons_cons] using this)
              simp only [List.zip_cons_cons, List.map_cons] at htail
              rw [htail]

lemma zip_take_len {α β : Type} :
    ∀ (l1 : List α) (l2 : List β), l1.zip l2 = (l1.take l2.length).zip l2 := by
  intro l1
  induction l1 with
  | nil => intro l2; simp
  | cons a t ih =>
    intro l2
    cases l2 with
    | nil => simp
    | cons b t2 => simp [ih t2]

/-! Facts about the grid enumerator. -/

lemma sum_map_const {α : Type} (l : List α) (n : ℕ) :
    (l.map (fun _ => n)).sum = l.length * n := by
  induction l with
  | nil => simp
  | cons a t ih => simp [ih, Nat.succ_mul, Nat.add_comm]

lemma gridPoints_length (s : ℚ) :
    (gridPoints s).length = (Int.floor ((1 : ℚ) / s)).toNat := by
  unfold gridPoints
  rw [List.length_map, List.length_range]

lemma gridLists_length : ∀ (steps : List ℚ),
    (gridLists steps).length = (steps.map (fun s => (gridPoints s).length)).prod := by
  intro steps
  induction steps with
  | nil => simp [gridLists]
  | cons s rest ih =>
    simp only [gridLists, List.length_flatten, List.map_map]
    have hconst : (List.length ∘ fun v : ℚ => (gridLists rest).map (fun l => v :: l)) =
        fun _ : ℚ => (gridLists rest).length := by
      funext x
      simp
    rw [hconst, sum_map_const, ih, List.map_cons, List.prod_cons]

lemma gridLists_mem : ∀ (steps : List ℚ) (c : List ℚ),
    c ∈ gridLists steps → List.Forall₂ (fun v s => v ∈ gridPoints s) c steps := by
  intro steps
  induction steps with
  | nil => intro c hc; simp [gridLists] at hc; simp [hc]
  | cons s rest ih =>
    intro c hc
    simp only [gridLists, List.mem_flatten, List.mem_map] at hc
    obtain ⟨block, ⟨v, hv, rfl⟩, hcblock⟩ := hc
    simp only [List.mem_map] at hcblock
    obtain ⟨l, hl, rfl⟩ := hcblock
    exact List.Forall₂.cons hv (ih l hl)

lemma gridPoints_sorted {s : ℚ} (hs : 0 < s) :
    List.Pairwise (fun a b => a < b) (gridPoints s) := by
  unfold gridPoints
  apply List.pairwise_map.mpr
  apply (List.pairwise_lt_range _).imp
  intro a b hab
  have h1 : (a : ℚ) + 1 < (b : ℚ) + 1 := by
    have h0 : (a : ℚ) < (b : ℚ) := by exact_mod_cast hab
    linarith
  exact mul_lt_mul_of_pos_right h1 hs

lemma gridLists_pairwise : ∀ (steps : List ℚ), (∀ s ∈ steps, 0 < s) →
    List.Pairwise (List.Lex (fun a b : ℚ => a < b)) (gridLists steps) := by
  intro steps
  induction steps with
  | nil => intro _; simp [gridLists]
  | cons s rest ih =>
    intro hpos
    simp only [gridLists]
    rw [List.pairwise_flatten]
    constructor
    · intro block hb
      simp only [List.mem_map] at hb
      obtain ⟨v, hv, rfl⟩ := hb
      rw [List.pairwise_map]
      exact (ih (fun x hx => hpos x (List.mem_cons_of_mem s hx))).imp
        (fun h => List.Lex.cons h)
    · rw [List.pairwise_map]
      apply (gridPoints_sorted (hpos s (List.mem_cons_self s rest))).imp
      intro a b hab x hx y hy
      simp only [List.mem_map] at hx hy
      obtain ⟨l1, _, rfl⟩ := hx
      obtain ⟨l2, _, rfl⟩ := hy
      exact List.Lex.rel hab

lemma steps_length {cfg : StepSize} {D : ℕ} (hv : cfg.valid D = true) :
    (cfg.steps D).length = D := by
  cases cfg with
  | uniform s => simp [StepSize.steps]
  | perDim l =>
    simp only [StepSize.valid, Bool.and_eq_true, beq_iff_eq] at hv
    simpa [StepSize.steps] using hv.1

lemma steps_pos {cfg : StepSize} {D : ℕ} (hv : cfg.valid D = true) :
    ∀ s ∈ cfg.steps D, 0 < s := by
  cases cfg with
  | uniform s =>
    simp only [StepSize.valid, validStep, Bool.and_eq_true,
      decide_eq_true_eq] at hv
    intro x hx
    rw [List.eq_of_mem_replicate hx]
    exact hv.1
  | perDim l =>
    simp only [StepSize.valid, Bool.and_eq_true, List.all_eq_true] at hv
    intro x hx
    have := hv.2 x hx
    simp only [validStep, Bool.and_eq_true, decide_eq_true_eq] at this
    exact this.1

/-! Facts about the orchestrator pipeline. -/

lemma labels_eq (s : Sensitivity) (coords : List (List ℚ))
    (h : s.lists = Except.ok coords) :
    s.labels = Except.ok (coords.map (labelOf s.perturbation_model)) := by
  unfold Sensitivity.labels
  rw [h]
  rfl

lemma searches_eq (s : Sensitivity) (coords : List (List ℚ))
    (h : s.lists = Except.ok coords) :
    s.searches = Except.ok ((coords.map (labelOf s.perturbation_model)).map
      (fun label => s.search_instance (name_path_of s.search.paths label))) := by
  unfold Sensitivity.searches
  rw [labels_eq s coords h]
  rfl

lemma perturbation_instances_eq (s : Sensitivity) (coords : List (List ℚ))
    (h : s.lists = Except.ok coords) :
    s.perturbation_instances =
      Except.ok (coords.map s.perturbation_model.instance_from_unit_vector) := by
  unfold Sensitivity.perturbation_instances
  rw [h]
  rfl

lemma make_jobs_eq (s : Sensitivity) (coords : List (List ℚ))
    (h : s.lists = Except.ok coords) :
    s.make_jobs = Except.ok (coords.map s.jobFor) := by
  unfold Sensitivity.make_jobs
  rw [perturbation_instances_eq s coords h, searches_eq s coords h]
  show Except.ok
    (((coords.map s.perturbation_model.instance_from_unit_vector).zip
      ((coords.map (labelOf s.perturbation_model)).map
        (fun label => s.search_instance (name_path_of s.search.paths label)))).map
      (fun pr => s.make_job pr.1 pr.2)) = _
  rw [List.map_map, List.zip_map', List.map_map]
  rfl

lemma run_eq (s : Sensitivity) (ex : Executor) (coords : List (List ℚ))
    (h : s.lists = Except.ok coords) :
    s.run ex = Except.ok (ex (coords.map s.jobFor) s.number_of_cores) := by
  unfold Sensitivity.run
  rw [make_jobs_eq s coords h]
  rfl

lemma lists_invalid (s : Sensitivity)
    (hv : s.step_size.valid s.perturbation_model.prior_count = false) :
    s.lists = Except.error "invalid step size" := by
  unfold Sensitivity.lists make_lists
  simp [hv]

lemma make_jobs_err (s : Sensitivity) (e : String)
    (h : s.lists = Except.error e) : s.make_jobs = Except.error e := by
  unfold Sensitivity.make_jobs Sensitivity.perturbation_instances
  rw [h]
  rfl

lemma run_err (s : Sensitivity) (ex : Executor) (e : String)
    (h : s.lists = Except.error e) : s.run ex = Except.error e := by
  unfold Sensitivity.run
  rw [make_jobs_err s e h]
  rfl

/-! Concrete evaluations. -/

lemma validStep_half : validStep (1 / 2) = true := by
  simp only [validStep, Bool.and_eq_true, decide_eq_true_eq]
  norm_num

lemma validStep_bad : validStep (3 / 2) = false := by
  rw [Bool.eq_false_iff]
  intro h
  simp only [validStep, Bool.and_eq_true, decide_eq_true_eq] at h
  have := h.2
  norm_num at this

lemma valid_uniform_half (D : ℕ) :
    (StepSize.uniform (1 / 2)).valid D = true :=
  validStep_half

lemma valid_uniform_bad (D : ℕ) :
    (StepSize.uniform (3 / 2)).valid D = false :=
  validStep_bad

lemma gridPoints_half : gridPoints (1 / 2) = [1 / 2, 1] := by
  unfold gridPoints
  rw [show Int.floor ((1 : ℚ) / (1 / 2)) = 2 by norm_num]
  rw [show ((2 : ℤ)).toNat = 2 from rfl]
  rw [show List.range 2 = [0, 1] from rfl]
  simp only [List.map_cons, List.map_nil]
  norm_num

lemma gridLists_cons (s : ℚ) (rest : List ℚ) :
    gridLists (s :: rest) =
      ((gridPoints s).map (fun v => (gridLists rest).map (fun l => v :: l))).flatten := rfl

lemma gridLists_half_one : gridLists [(1 : ℚ) / 2] = [[1 / 2], [1]] := by
  rw [gridLists_cons, gridPoints_half]
  rfl

lemma gridLists_half_two :
    gridLists [(1 : ℚ) / 2, 1 / 2] =
      [[1 / 2, 1 / 2], [1 / 2, 1], [1, 1 / 2], [1, 1]] := by
  rw [gridLists_cons, gridPoints_half, gridLists_half_one]
  rfl

lemma make_lists_two_half :
    make_lists 2 (StepSize.uniform (1 / 2)) =
      Except.ok [[1 / 2, 1 / 2], [1 / 2, 1], [1, 1 / 2], [1, 1]] := by
  unfold make_lists
  rw [valid_uniform_half, if_pos rfl]
  show Except.ok (gridLists [(1 : ℚ) / 2, 1 / 2]) = _
  rw [gridLists_half_two]

lemma cSens_lists : cSens.lists = Except.ok [[(1 : ℚ) / 2], [1]] := by
  show make_lists cSens.perturbation_model.prior_count cSens.step_size = _
  rw [show cSens.perturbation_model.prior_count = 1 from rfl,
    show cSens.step_size = StepSize.uniform (1 / 2) from rfl]
  unfold make_lists
  rw [valid_uniform_half, if_pos rfl]
  show Except.ok (gridLists [(1 : ℚ) / 2]) = _
  rw [gridLists_half_one]

lemma degSens_lists : degSens.lists = Except.ok [[(1 : ℚ) / 2], [1]] := by
  show make_lists degSens.perturbation_model.prior_count degSens.step_size = _
  rw [show degSens.perturbation_model.prior_count = 1 from rfl,
    show degSens.step_size = StepSize.uniform (1 / 2) from rfl]
  unfold make_lists
  rw [valid_uniform_half, if_pos rfl]
  show Except.ok (gridLists [(1 : ℚ) / 2]) = _
  rw [gridLists_half_one]

lemma cSens1_lists : cSens1.lists = Except.ok [[(1 : ℚ) / 2], [1]] := by
  show make_lists cSens1.perturbation_model.prior_count cSens1.step_size = _
  rw [show cSens1.perturbation_model.prior_count = 1 from rfl,
    show cSens1.step_size = StepSize.uniform (1 / 2) from rfl]
  unfold make_lists
  rw [valid_uniform_half, if_pos rfl]
  show Except.ok (gridLists [(1 : ℚ) / 2]) = _
  rw [gridLists_half_one]

lemma natReprL_one : natReprL 1 = ['1'] := by
  unfold natReprL
  rw [if_neg (by norm_num : (1 : ℕ) ≠ 0)]
  rw [show Nat.digits 10 1 = [1] by simp]
  rfl

lemma natReprL_two : natReprL 2 = ['2'] := by
  unfold natReprL
  rw [if_neg (by norm_num : (2 : ℕ) ≠ 0)]
  rw [show Nat.digits 10 2 = [2] by simp]
  rfl

lemma intReprL_one : intReprL 1 = ['1'] := by
  unfold intReprL
  rw [if_neg (by norm_num : ¬((1 : ℤ) < 0))]
  exact natReprL_one

lemma renderValue_half : renderValue (1 / 2) = "1/2" := by
  unfold renderValue ratReprL
  rw [show ((1 : ℚ) / 2).num = 1 by norm_num,
    show ((1 : ℚ) / 2).den = 2 by norm_num]
  rw [if_neg (by norm_num : ¬((2 : ℕ) = 1))]
  rw [intReprL_one, natReprL_two]
  rfl

lemma renderValue_one : renderValue 1 = "1" := by
  unfold renderValue ratReprL
  rw [show ((1 : ℚ)).num = 1 by norm_num, show ((1 : ℚ)).den = 1 by norm_num]
  rw [if_pos rfl, intReprL_one]
  rfl

lemma labelOf_cModel_half : labelOf cModel [1 / 2] = "p_1/2" := by
  show joinUnderscore ["p" ++ "_" ++ renderValue (idPrior.value_for (1 / 2))] = _
  rw [show idPrior.value_for (1 / 2) = 1 / 2 from rfl, renderValue_half]
  decide

lemma labelOf_cModel_one : labelOf cModel [1] = "p_1" := by
  show joinUnderscore ["p" ++ "_" ++ renderValue (idPrior.value_for 1)] = _
  rw [show idPrior.value_for 1 = 1 from rfl, renderValue_one]
  decide

lemma labelOf_deg (q : ℚ) : labelOf degModel [q] = "p_1" := by
  show joinUnderscore ["p" ++ "_" ++ renderValue (constPrior.value_for q)] = _
  rw [show constPrior.value_for q = 1 from rfl, renderValue_one]
  decide

lemma degSens_jobFor (q : ℚ) :
    degSens.jobFor [q] = degSens.make_job (MInst.vec [q])
      (degSens.search_instance (name_path_of degSens.search.paths "p_1")) := by
  unfold Sensitivity.jobFor
  rw [show degSens.perturbation_model = degModel from rfl, labelOf_deg q]
  rfl

lemma jobFor_baseline_paths (s : Sensitivity) (c : List ℚ) :
    (s.jobFor c).search.paths =
      Paths.make (name_path_of s.search.paths (labelOf s.perturbation_model c))
        s.search.paths.tag s.search.paths.path_pfx
        s.search.paths.remove_files := rfl

lemma jobFor_perturbed_paths (s : Sensitivity) (c : List ℚ) :
    (s.jobFor c).perturbed_search.paths =
      Paths.make (name_path_of s.search.paths (labelOf s.perturbation_model c))
        (s.search.paths.tag ++ "[perturbed]") s.search.paths.path_pfx
        s.search.paths.remove_files := rfl

lemma name_path_inj {p : Paths} {l1 l2 : String}
    (h : name_path_of p l1 = name_path_of p l2) : l1 = l2 := by
  unfold name_path_of at h
  have hd := congrArg String.data h
  simp only [String.data_append, List.append_assoc,
    List.append_cancel_left_eq] at hd
  exact String.ext hd

lemma tag_ne_perturbed (t : String) : t ≠ t ++ "[perturbed]" := by
  intro h
  have hd := congrArg String.data h
  rw [String.data_append] at hd
  nth_rewrite 1 [← List.append_nil t.data] at hd
  have hx := List.append_cancel_left hd
  exact absurd hx.symm (by decide)

/-! The claims. -/

/-- Claim C3: Job.perform fits a composite model holding only the base model
with the baseline search against the analysis of the job, fits a second
composite holding the perturbation model and the base model with the
perturbed search against the same analysis, and returns the job result
pairing exactly these two fit results, baseline first. -/
theorem C3_perform_protocol (j : Job) :
    j.perform =
      { result := j.search.fit ⟨[("model", j.model)]⟩ j.analysis
        perturbed_result := j.perturbed_search.fit
          ⟨[("perturbation", j.perturbation_model), ("model", j.model)]⟩
          j.analysis } := rfl

/-- Claim C4: the log likelihood difference of a job result equals the
perturbed log likelihood minus the baseline log likelihood, exactly; for
baseline -12.5 and perturbed -9.0 the difference is 3.5. -/
theorem C4_log_likelihood_difference :
    (∀ jr : JobResult, jr.log_likelihood_difference =
      jr.perturbed_result.log_likelihood - jr.result.log_likelihood) ∧
    JobResult.log_likelihood_difference ⟨⟨-12.5⟩, ⟨-9.0⟩⟩ = 3.5 :=
  ⟨fun _ => rfl, by norm_num [JobResult.log_likelihood_difference]⟩

/-- Claim C9: the label builder raises no error on a length mismatch between
the coordinate and the prior pairs: the zip silently pairs only the first
min(coordinate length, prior count) dimensions, so the token count is that
minimum and excess coordinate components are ignored. -/
theorem C9_zip_truncation (m : PriorModel) (c : List ℚ) :
    (tokensOf m c).length = min c.length m.prior_tuples.length ∧
    tokensOf m c = tokensOf m (c.take m.prior_tuples.length) ∧
    labelOf m c = labelOf m (c.take m.prior_tuples.length) := by
  refine ⟨?_, ?_, ?_⟩
  · simp [tokensOf]
  · unfold tokensOf
    rw [← zip_take_len]
  · unfold labelOf tokensOf
    rw [← zip_take_len]

/-- Claim C1 counterexample: an executor that completes the jobs in reverse
submission order, yielding one result per submitted job, makes run return
the results in yielded order, so the result at index 0 is the one for grid
coordinate index 1 and positional correspondence with the grid fails. -/
theorem C1_counterexample :
    cSens.run reverseExecutor =
      Except.ok [⟨⟨1⟩, ⟨1⟩⟩, ⟨⟨(1 : ℚ) / 2⟩, ⟨1 / 2⟩⟩] ∧
    cSens.make_jobs.map (fun js => js.map Job.perform) =
      Except.ok [⟨⟨(1 : ℚ) / 2⟩, ⟨1 / 2⟩⟩, ⟨⟨1⟩, ⟨1⟩⟩] ∧
    (⟨⟨1⟩, ⟨1⟩⟩ : JobResult) ≠ ⟨⟨(1 : ℚ) / 2⟩, ⟨1 / 2⟩⟩ := by
  refine ⟨?_, ?_, ?_⟩
  · rw [run_eq cSens reverseExecutor _ cSens_lists]
    rfl
  · rw [make_jobs_eq cSens _ cSens_lists]
    rfl
  · intro h
    have h1 : (1 : ℚ) = 1 / 2 :=
      congrArg (fun jr : JobResult => jr.result.log_likelihood) h
    norm_num at h1

/-- Claim C1 corrected: run returns exactly the sequence the executor
yields; when the executor yields the performed results in submission order,
the result at index i is the performed job for grid coordinate i and there
is one result per grid coordinate.  The original claim fails for an executor
that completes jobs out of submission order, because run does no
reordering. -/
theorem C1_run_in_executor_order (s : Sensitivity) (ex : Executor)
    (coords : List (List ℚ)) (h : s.lists = Except.ok coords)
    (hex : ∀ js n, ex js n = js.map Job.perform) :
    s.run ex = Except.ok ((coords.map s.jobFor).map Job.perform) ∧
    ((coords.map s.jobFor).map Job.perform).length = coords.length := by
  constructor
  · rw [run_eq s ex coords h, hex]
  · simp

/-- Witness for the corrected claim C1 at the concrete configuration with an
order-preserving executor. -/
theorem C1_run_in_executor_order_witness :
    cSens.lists = Except.ok [[(1 : ℚ) / 2], [1]] ∧
    (cSens.run orderedExecutor =
      Except.ok (([[(1 : ℚ) / 2], [1]].map cSens.jobFor).map Job.perform) ∧
    (([[(1 : ℚ) / 2], [1]].map cSens.jobFor).map Job.perform).length =
      ([[(1 : ℚ) / 2], [1]] : List (List ℚ)).length) :=
  ⟨cSens_lists,
    C1_run_in_executor_order cSens orderedExecutor _ cSens_lists
      (fun _ _ => rfl)⟩

/-- Claim C7 counterexample: a run configured with a single worker is not
rejected: construction succeeds, the jobs are constructed and dispatched,
and the run returns results rather than failing fast with a configuration
error. -/
theorem C7_counterexample :
    cSens1.number_of_cores = 1 ∧
    cSens1.make_jobs = Except.ok ([[(1 : ℚ) / 2], [1]].map cSens1.jobFor) ∧
    cSens1.run orderedExecutor =
      Except.ok [⟨⟨(1 : ℚ) / 2⟩, ⟨1 / 2⟩⟩, ⟨⟨1⟩, ⟨1⟩⟩] := by
  refine ⟨rfl, make_jobs_eq cSens1 _ cSens1_lists, ?_⟩
  rw [run_eq cSens1 orderedExecutor _ cSens1_lists]
  rfl

/-- Claim C7 corrected: an invalid step size makes the run fail with a
configuration error during grid enumeration, before any job is constructed;
the worker count, however, is not validated anywhere, so a run with a single
worker proceeds normally. -/
theorem C7_invalid_step_fails (s : Sensitivity) (ex : Executor)
    (hv : s.step_size.valid s.perturbation_model.prior_count = false) :
    s.make_jobs = Except.error "invalid step size" ∧
    s.run ex = Except.error "invalid step size" :=
  ⟨make_jobs_err s _ (lists_invalid s hv), run_err s ex _ (lists_invalid s hv)⟩

/-- Witness for the corrected claim C7 at the out-of-range step size. -/
theorem C7_invalid_step_fails_witness :
    badStepSens.step_size.valid badStepSens.perturbation_model.prior_count =
      false ∧
    (badStepSens.make_jobs = Except.error "invalid step size" ∧
     badStepSens.run orderedExecutor = Except.error "invalid step size") :=
  ⟨valid_uniform_bad 1,
    C7_invalid_step_fails badStepSens orderedExecutor (valid_uniform_bad 1)⟩

/-- Claim C8 counterexample: with a constant prior both grid coordinates
receive the same label, yet the run does not detect the collision: it
proceeds and returns results normally instead of failing with a
configuration error. -/
theorem C8_counterexample :
    degSens.labels = Except.ok ["p_1", "p_1"] ∧
    degSens.run orderedExecutor =
      Except.ok [⟨⟨(1 : ℚ) / 2⟩, ⟨1 / 2⟩⟩, ⟨⟨1⟩, ⟨1⟩⟩] := by
  constructor
  · rw [labels_eq degSens _ degSens_lists]
    rw [show ([[(1 : ℚ) / 2], [1]].map (labelOf degSens.perturbation_model)) =
        ["p_1", "p_1"] from by
      rw [show degSens.perturbation_model = degModel from rfl]
      rw [show ([[(1 : ℚ) / 2], [1]].map (labelOf degModel)) =
          [labelOf degModel [(1 : ℚ) / 2], labelOf degModel [1]] from rfl]
      rw [labelOf_deg, labelOf_deg]]
  · rw [run_eq degSens orderedExecutor _ degSens_lists]
    rfl

/-- Claim C8 corrected: the run performs no label collision detection: even
when the emitted labels contain duplicates, the labels are passed through
unchanged and the run hands the jobs to the executor and returns its
results. -/
theorem C8_no_collision_detection (s : Sensitivity) (ex : Executor)
    (coords : List (List ℚ)) (h : s.lists = Except.ok coords)
    (_hdup : ¬ (coords.map (labelOf s.perturbation_model)).Nodup) :
    s.labels = Except.ok (coords.map (labelOf s.perturbation_model)) ∧
    s.run ex = Except.ok (ex (coords.map s.jobFor) s.number_of_cores) :=
  ⟨labels_eq s coords h, run_eq s ex coords h⟩

/-- Witness for the corrected claim C8 at the degenerate configuration with
duplicate labels. -/
theorem C8_no_collision_detection_witness :
    degSens.lists = Except.ok [[(1 : ℚ) / 2], [1]] ∧
    ¬ ([[(1 : ℚ) / 2], [1]].map (labelOf degSens.perturbation_model)).Nodup ∧
    (degSens.labels =
      Except.ok ([[(1 : ℚ) / 2], [1]].map (labelOf degSens.perturbation_model)) ∧
    degSens.run orderedExecutor =
      Except.ok (orderedExecutor ([[(1 : ℚ) / 2], [1]].map degSens.jobFor)
        degSens.number_of_cores)) := by
  have hdup :
      ¬ ([[(1 : ℚ) / 2], [1]].map (labelOf degSens.perturbation_model)).Nodup := by
    rw [show degSens.perturbation_model = degModel from rfl]
    rw [show ([[(1 : ℚ) / 2], [1]].map (labelOf degModel)) =
        [labelOf degModel [(1 : ℚ) / 2], labelOf degModel [1]] from rfl]
    rw [labelOf_deg, labelOf_deg]
    decide
  exact ⟨degSens_lists, hdup,
    C8_no_collision_detection degSens orderedExecutor _ degSens_lists hdup⟩

/-- Claim C5 counterexample: with a constant prior the degenerate run builds
two distinct jobs, with different analyses, whose baseline searches carry
identical path descriptors, so the four output namespaces of the two jobs
are not pairwise disjoint. -/
theorem C5_counterexample :
    degSens.make_jobs =
      Except.ok [degSens.jobFor [(1 : ℚ) / 2], degSens.jobFor [1]] ∧
    (degSens.jobFor [(1 : ℚ) / 2]).search.paths =
      (degSens.jobFor [1]).search.paths ∧
    (degSens.jobFor [(1 : ℚ) / 2]).search.paths.name = "srch/tag/nl/p_1" ∧
    (degSens.jobFor [(1 : ℚ) / 2]).analysis ≠ (degSens.jobFor [1]).analysis := by
  refine ⟨make_jobs_eq degSens _ degSens_lists, ?_, ?_, ?_⟩
  · rw [degSens_jobFor, degSens_jobFor]
    rfl
  · rw [degSens_jobFor]
    decide
  · rw [degSens_jobFor, degSens_jobFor]
    show ¬ ((1 : ℚ) / 2 = 1)
    norm_num

/-- Claim C5 corrected: for two jobs of one run whose grid coordinates have
distinct labels, the four derived output namespaces, the baseline and the
perturbed path descriptor of each job, are pairwise distinct; for
coordinates with colliding labels, as a degenerate prior produces, the
baseline descriptors of the two jobs coincide and the claim fails. -/
theorem C5_distinct_labels_disjoint (s : Sensitivity)
    (coords : List (List ℚ)) (h : s.lists = Except.ok coords)
    (i j : ℕ) (hi : i < coords.length) (hj : j < coords.length)
    (hlab : labelOf s.perturbation_model (coords.get ⟨i, hi⟩) ≠
      labelOf s.perturbation_model (coords.get ⟨j, hj⟩)) :
    s.make_jobs = Except.ok (coords.map s.jobFor) ∧
    List.Pairwise (fun p q => p ≠ q)
      [(s.jobFor (coords.get ⟨i, hi⟩)).search.paths,
       (s.jobFor (coords.get ⟨i, hi⟩)).perturbed_search.paths,
       (s.jobFor (coords.get ⟨j, hj⟩)).search.paths,
       (s.jobFor (coords.get ⟨j, hj⟩)).perturbed_search.paths] := by
  refine ⟨make_jobs_eq s coords h, ?_⟩
  have hname : name_path_of s.search.paths
        (labelOf s.perturbation_model (coords.get ⟨i, hi⟩)) ≠
      name_path_of s.search.paths
        (labelOf s.perturbation_model (coords.get ⟨j, hj⟩)) :=
    fun he => hlab (name_path_inj he)
  have htag := tag_ne_perturbed s.search.paths.tag
  rw [jobFor_baseline_paths s (coords.get ⟨i, hi⟩),
    jobFor_perturbed_paths s (coords.get ⟨i, hi⟩),
    jobFor_baseline_paths s (coords.get ⟨j, hj⟩),
    jobFor_perturbed_paths s (coords.get ⟨j, hj⟩)]
  refine List.Pairwise.cons ?_ (List.Pairwise.cons ?_ (List.Pairwise.cons ?_
    (List.Pairwise.cons (fun b hb => absurd hb (List.not_mem_nil b))
      List.Pairwise.nil)))
  · intro b hb
    rcases List.mem_cons.mp hb with rfl | hb
    · exact fun he => htag (congrArg Paths.tag he)
    rcases List.mem_cons.mp hb with rfl | hb
    · exact fun he => hname (congrArg Paths.name he)
    rcases List.mem_cons.mp hb with rfl | hb
    · exact fun he => hname (congrArg Paths.name he)
    · exact absurd hb (List.not_mem_nil b)
  · intro b hb
    rcases List.mem_cons.mp hb with rfl | hb
    · exact fun he => hname (congrArg Paths.name he)
    rcases List.mem_cons.mp hb with rfl | hb
    · exact fun he => hname (congrArg Paths.name he)
    · exact absurd hb (List.not_mem_nil b)
  · intro b hb
    rcases List.mem_cons.mp hb with rfl | hb
    · exact fun he => htag (congrArg Paths.tag he)
    · exact absurd hb (List.not_mem_nil b)

/-- Witness for the corrected claim C5 at the concrete configuration, whose
two grid coordinates have distinct labels. -/
theorem C5_distinct_labels_disjoint_witness :
    cSens.lists = Except.ok [[(1 : ℚ) / 2], [1]] ∧
    (0 : ℕ) < ([[(1 : ℚ) / 2], [1]] : List (List ℚ)).length ∧
    (1 : ℕ) < ([[(1 : ℚ) / 2], [1]] : List (List ℚ)).length ∧
    labelOf cSens.perturbation_model
        (([[(1 : ℚ) / 2], [1]] : List (List ℚ)).get ⟨0, by norm_num⟩) ≠
      labelOf cSens.perturbation_model
        (([[(1 : ℚ) / 2], [1]] : List (List ℚ)).get ⟨1, by norm_num⟩) ∧
    (cSens.make_jobs = Except.ok ([[(1 : ℚ) / 2], [1]].map cSens.jobFor) ∧
    List.Pairwise (fun p q => p ≠ q)
      [(cSens.jobFor (([[(1 : ℚ) / 2], [1]] :
          List (List ℚ)).get ⟨0, by norm_num⟩)).search.paths,
       (cSens.jobFor (([[(1 : ℚ) / 2], [1]] :
          List (List ℚ)).get ⟨0, by norm_num⟩)).perturbed_search.paths,
       (cSens.jobFor (([[(1 : ℚ) / 2], [1]] :
          List (List ℚ)).get ⟨1, by norm_num⟩)).search.paths,
       (cSens.jobFor (([[(1 : ℚ) / 2], [1]] :
          List (List ℚ)).get ⟨1, by norm_num⟩)).perturbed_search.paths]) := by
  have hlab : labelOf cSens.perturbation_model
        (([[(1 : ℚ) / 2], [1]] : List (List ℚ)).get ⟨0, by norm_num⟩) ≠
      labelOf cSens.perturbation_model
        (([[(1 : ℚ) / 2], [1]] : List (List ℚ)).get ⟨1, by norm_num⟩) := by
    show labelOf cModel [(1 : ℚ) / 2] ≠ labelOf cModel [1]
    rw [labelOf_cModel_half, labelOf_cModel_one]
    decide
  exact ⟨cSens_lists, by norm_num, by norm_num, hlab,
    C5_distinct_labels_disjoint cSens _ cSens_lists 0 1 (by norm_num)
      (by norm_num) hlab⟩

/-- Claim C10: for every job built by the orchestrator for a grid coordinate
with label L, the baseline search has the path descriptor with name
the template name, tag, non-linear tag and L joined by slashes, and the
template tag, path prefix and removal policy unchanged; the perturbed
search has the identical descriptor except that its tag carries the literal
suffix. -/
theorem C10_derived_paths (s : Sensitivity) (coords : List (List ℚ))
    (h : s.lists = Except.ok coords) :
    s.make_jobs = Except.ok (coords.map s.jobFor) ∧
    ∀ c ∈ coords,
      (s.jobFor c).search.paths.name =
        s.search.paths.name ++ "/" ++ s.search.paths.tag ++ "/" ++
          s.search.paths.non_linear_tag ++ "/" ++
          labelOf s.perturbation_model c ∧
      (s.jobFor c).search.paths.tag = s.search.paths.tag ∧
      (s.jobFor c).search.paths.path_pfx = s.search.paths.path_pfx ∧
      (s.jobFor c).search.paths.remove_files = s.search.paths.remove_files ∧
      (s.jobFor c).perturbed_search.paths =
        { (s.jobFor c).search.paths with
            tag := (s.jobFor c).search.paths.tag ++ "[perturbed]" } :=
  ⟨make_jobs_eq s coords h, fun _ _ => ⟨rfl, rfl, rfl, rfl, rfl⟩⟩

/-- Witness for claim C10 at the concrete configuration. -/
theorem C10_derived_paths_witness :
    cSens.lists = Except.ok [[(1 : ℚ) / 2], [1]] ∧
    (cSens.make_jobs = Except.ok ([[(1 : ℚ) / 2], [1]].map cSens.jobFor) ∧
    ∀ c ∈ ([[(1 : ℚ) / 2], [1]] : List (List ℚ)),
      (cSens.jobFor c).search.paths.name =
        cSens.search.paths.name ++ "/" ++ cSens.search.paths.tag ++ "/" ++
          cSens.search.paths.non_linear_tag ++ "/" ++
          labelOf cSens.perturbation_model c ∧
      (cSens.jobFor c).search.paths.tag = cSens.search.paths.tag ∧
      (cSens.jobFor c).search.paths.path_pfx = cSens.search.paths.path_pfx ∧
      (cSens.jobFor c).search.paths.remove_files =
        cSens.search.paths.remove_files ∧
      (cSens.jobFor c).perturbed_search.paths =
        { (cSens.jobFor c).search.paths with
            tag := (cSens.jobFor c).search.paths.tag ++ "[perturbed]" }) :=
  ⟨cSens_lists, C10_derived_paths cSens _ cSens_lists⟩

/-- Claim C2: for dimensionality D at least 1 and a valid step-size
configuration, the grid enumerator returns exactly the cartesian product of
the per-dimension point lists s, 2s, ..., floor(1/s) s: the count is the
product of the per-dimension counts, every coordinate is a D-length
sequence with its component in the respective dimension point list, the
sequence is strictly increasing in lexicographic order with the first
dimension most significant, and D = 2 with uniform step one half yields
exactly the four listed coordinates in order. -/
theorem C2_grid_enumerator (D : ℕ) (cfg : StepSize) (_hD : 1 ≤ D)
    (hv : cfg.valid D = true) :
    make_lists D cfg = Except.ok (gridLists (cfg.steps D)) ∧
    (gridLists (cfg.steps D)).length =
      ((cfg.steps D).map (fun s => (Int.floor ((1 : ℚ) / s)).toNat)).prod ∧
    (∀ c ∈ gridLists (cfg.steps D), c.length = D ∧
      List.Forall₂ (fun v s => v ∈ gridPoints s) c (cfg.steps D)) ∧
    List.Pairwise (List.Lex (fun a b : ℚ => a < b)) (gridLists (cfg.steps D)) ∧
    make_lists 2 (StepSize.uniform (1 / 2)) =
      Except.ok [[1 / 2, 1 / 2], [1 / 2, 1], [1, 1 / 2], [1, 1]] := by
  refine ⟨?_, ?_, ?_, ?_, make_lists_two_half⟩
  · unfold make_lists
    rw [if_pos hv]
  · rw [gridLists_length]
    have hfun : (fun s : ℚ => (gridPoints s).length) =
        fun s : ℚ => (Int.floor ((1 : ℚ) / s)).toNat :=
      funext gridPoints_length
    rw [hfun]
  · intro c hc
    have hf := gridLists_mem _ c hc
    exact ⟨by rw [hf.length_eq, steps_length hv], hf⟩
  · exact gridLists_pairwise _ (steps_pos hv)

/-- Witness for claim C2 at dimensionality 2 with uniform step one half. -/
theorem C2_grid_enumerator_witness :
    (1 : ℕ) ≤ 2 ∧ (StepSize.uniform (1 / 2)).valid 2 = true ∧
    (make_lists 2 (StepSize.uniform (1 / 2)) =
      Except.ok (gridLists ((StepSize.uniform (1 / 2)).steps 2)) ∧
    (gridLists ((StepSize.uniform (1 / 2)).steps 2)).length =
      (((StepSize.uniform (1 / 2)).steps 2).map
        (fun s => (Int.floor ((1 : ℚ) / s)).toNat)).prod ∧
    (∀ c ∈ gridLists ((StepSize.uniform (1 / 2)).steps 2), c.length = 2 ∧
      List.Forall₂ (fun v s => v ∈ gridPoints s) c
        ((StepSize.uniform (1 / 2)).steps 2)) ∧
    List.Pairwise (List.Lex (fun a b : ℚ => a < b))
      (gridLists ((StepSize.uniform (1 / 2)).steps 2)) ∧
    make_lists 2 (StepSize.uniform (1 / 2)) =
      Except.ok [[1 / 2, 1 / 2], [1 / 2, 1], [1, 1 / 2], [1, 1]]) :=
  ⟨by norm_num, valid_uniform_half 2,
    C2_grid_enumerator 2 (StepSize.uniform (1 / 2)) (by norm_num)
      (valid_uniform_half 2)⟩

/-- Claim C6: for a coordinate of the model dimensionality the label is the
underscore-join of the path and transformed-value tokens in declared
dimension order; the builder is a pure function, and two coordinates of the
model dimensionality whose transformed physical values differ receive
different labels. -/
theorem C6_label_builder (m : PriorModel) (c1 c2 : List ℚ)
    (h1 : c1.length = m.prior_tuples.length)
    (h2 : c2.length = m.prior_tuples.length)
    (hne : valuesOf m c1 ≠ valuesOf m c2) :
    (∀ c, labelOf m c = joinUnderscore (tokensOf m c)) ∧
    labelOf m c1 ≠ labelOf m c2 :=
  ⟨fun _ => rfl,
    fun he => hne (label_aux m.prior_tuples c1 c2 h1 h2 he)⟩

/-- Witness for claim C6 at the identity-prior model with the two concrete
coordinates. -/
theorem C6_label_builder_witness :
    ([(1 : ℚ) / 2] : List ℚ).length = cModel.prior_tuples.length ∧
    ([(1 : ℚ)] : List ℚ).length = cModel.prior_tuples.length ∧
    valuesOf cModel [(1 : ℚ) / 2] ≠ valuesOf cModel [1] ∧
    ((∀ c, labelOf cModel c = joinUnderscore (tokensOf cModel c)) ∧
      labelOf cModel [(1 : ℚ) / 2] ≠ labelOf cModel [1]) := by
  have hne : valuesOf cModel [(1 : ℚ) / 2] ≠ valuesOf cModel [1] := by
    intro h
    have h0 : idPrior.value_for ((1 : ℚ) / 2) = idPrior.value_for 1 :=
      (List.cons.inj h).1
    have h1 : ((1 : ℚ) / 2) = 1 := h0
    norm_num at h1
  exact ⟨rfl, rfl, hne,
    C6_label_builder cModel [(1 : ℚ) / 2] [1] rfl rfl hne⟩

end AutoFitSens
